import Mathlib

/-!
Verification of the `st25dvxxx` EEPROM driver
(`drivers/st25dvxxx/st25dvxxx.c`).

The driver is shallowly embedded: machine integers become `Nat` with
explicit `% 2 ^ w` where wraparound matters (`pos` is `uint32_t`,
`polls` is `uint8_t`, `size_t` is modelled at the 32-bit width of the
OS's usual targets), the I2C bus becomes an oracle `Nat → Int` giving
the result of the n-th bus transaction of a call, and every externally
visible action (bus acquire/release, register transactions, delay
sleeps, GPIO writes) is recorded in an event trace.  Fallible or
C-undefined behaviour is made explicit with `Option`: `none` stands for
the reads of an uninitialized variable (and, in loop models, for fuel
exhaustion, which is proved unreachable under the driver's parameter
invariants).
-/

/-- Errno constant `ENXIO` (bus returned `-ENXIO` means: device did not
acknowledge). -/
def ENXIO_errno : Int := 6

/-- Errno constant `ERANGE` (out of bounds). -/
def ERANGE_errno : Int := 34

/-- Errno constant `ENOTSUP` (operation not supported). -/
def ENOTSUP_errno : Int := 95

/-- Return value `ST25DVXXX_OK` of the driver's return-value enum. -/
def ST25DVXXX_OK : Int := 0

/-- Constant `ST25DVXXX_POLL_DELAY_US` from `st25dvxxx_defines.h`:
delay in microseconds between two poll attempts. -/
def ST25DVXXX_POLL_DELAY_US : Nat := 1000

/-- Constant `ST25DVXXX_CLEAR_BYTE` from `st25dvxxx_defines.h`. -/
def ST25DVXXX_CLEAR_BYTE : Nat := 0x00

/-- Constant `ST25DVXXX_SET_BUF_SIZE` from `st25dvxxx.c` (scratch
buffer size of `_set`). -/
def ST25DVXXX_SET_BUF_SIZE : Nat := 32

/-- Macro `MOD_POW2(x, y) = x & (y - 1)` from `st25dvxxx.c`. -/
def MOD_POW2 (x y : Nat) : Nat := x &&& (y - 1)

/-- `st25dvxxx_params_t` from `st25dvxxx.h`: immutable device
configuration.  `pin_wp` is `Option Nat`: `none` models `GPIO_UNDEF`
(then `gpio_is_valid` is false).  `dev_addr`, `page_size` and
`max_polls` are `uint8_t` fields, `eeprom_size` is `uint32_t`. -/
structure st25dvxxx_params where
  i2c : Nat
  pin_wp : Option Nat
  eeprom_size : Nat
  dev_addr : Nat
  page_size : Nat
  max_polls : Nat
deriving DecidableEq

/-- Observable actions of a driver call: bus acquire/release, one
`i2c_read_regs` / `i2c_write_regs` transaction (with the physical
device-address byte, the in-transaction address, the data length or
data bytes, and whether the `I2C_REG16` flag was passed), one
`xtimer_usleep`, and GPIO writes. -/
inductive Ev where
  | acq : Ev
  | rel : Ev
  | rd (devAddr txnAddr len : Nat) (reg16 : Bool) : Ev
  | wr (devAddr txnAddr : Nat) (data : List Nat) (reg16 : Bool) : Ev
  | sleep (us : Nat) : Ev
  | gpioSet (pin : Nat) : Ev
  | gpioClear (pin : Nat) : Ev
deriving DecidableEq

/-- Decrement of a `uint8_t`, with wraparound: `--polls` in the poll
loops of `_read` and `_write_page`. -/
def dec8 (x : Nat) : Nat := (x + 255) % 256

/-- Physical device-address byte computed identically in `_read`
(lines 79-91) and `_write_page` (lines 138-150): for capacities above
2048 the two high address bits beyond the 16-bit word address are
folded into the chip address, otherwise the bits beyond the 8-bit word
address are. -/
def _dev_addr (dev : st25dvxxx_params) (pos : Nat) : Nat :=
  if 2048 < dev.eeprom_size then
    dev.dev_addr ||| ((pos &&& 0xFF0000) >>> 16)
  else
    dev.dev_addr ||| ((pos &&& 0xFF00) >>> 8)

/-- In-transaction word address computed identically in `_read`
(lines 79-91) and `_write_page` (lines 138-150): `pos` masked to 16 or
8 bits depending on the capacity threshold. -/
def _txn_addr (dev : st25dvxxx_params) (pos : Nat) : Nat :=
  if 2048 < dev.eeprom_size then pos &&& 0xFFFF else pos &&& 0xFF

/-- Whether the `I2C_REG16` flag is passed (capacity above 2048 bytes),
identically in `_read` and `_write_page`. -/
def _reg16 (dev : st25dvxxx_params) : Bool := 2048 < dev.eeprom_size

/-- The single read transaction re-issued by `_read`'s poll loop. -/
def readEv (dev : st25dvxxx_params) (pos len : Nat) : Ev :=
  Ev.rd (_dev_addr dev pos) (_txn_addr dev pos) len (_reg16 dev)

/-- The single write transaction re-issued by `_write_page`'s poll
loop. -/
def writeEv (dev : st25dvxxx_params) (pos : Nat) (data : List Nat) : Ev :=
  Ev.wr (_dev_addr dev pos) (_txn_addr dev pos) data (_reg16 dev)

/-- The ACK-poll loop shared by `_read` (lines 93-99) and `_write_page`
(lines 152-158):

    while (-ENXIO == (check = i2c_..._regs(...))) {
        if (--polls == 0) { break; }
        xtimer_usleep(ST25DVXXX_POLL_DELAY_US);
    }
    return check;

`bus i` is the result of the transaction issued on attempt with oracle
index `i`; `e` is that (re-issued) transaction; `polls` is the
`uint8_t` attempt counter.  Returns `(check, attempts, events)`.
Structural fuel replaces the C loop; the wrapper `pollLoop` passes fuel
256, which is enough for every input because after one decrement the
counter is below 256 and strictly decreases until it reaches 0. -/
def pollGo (bus : Nat → Int) (e : Ev) : Nat → Nat → Nat → Int × Nat × List Ev
  | 0, ctr, _ => (bus ctr, 1, [e])
  | fuel+1, ctr, polls =>
    let check := bus ctr
    if check = -ENXIO_errno then
      let polls' := dec8 polls
      if polls' = 0 then (check, 1, [e])
      else
        let r := pollGo bus e fuel (ctr+1) polls'
        (r.1, r.2.1 + 1, e :: Ev.sleep ST25DVXXX_POLL_DELAY_US :: r.2.2)
    else (check, 1, [e])

/-- The poll loop with its fuel fixed at 256 (one initial attempt plus
at most 255 further decrements of the wrapped `uint8_t` counter). -/
def pollLoop (bus : Nat → Int) (e : Ev) (ctr polls : Nat) : Int × Nat × List Ev :=
  pollGo bus e 256 ctr polls

/-- `_read` (lines 71-104): translate the address, then run the poll
loop around `i2c_read_regs`. -/
def _read (dev : st25dvxxx_params) (bus : Nat → Int) (ctr pos len : Nat) :
    Int × Nat × List Ev :=
  pollLoop bus (readEv dev pos len) ctr dev.max_polls

/-- `_read_max` (lines 106-128): `PERIPH_I2C_MAX_BYTES_PER_FRAME` is
not defined in this configuration, so the `#else` branch applies and
`_read_max` is exactly `_read`. -/
def _read_max (dev : st25dvxxx_params) (bus : Nat → Int) (ctr pos len : Nat) :
    Int × Nat × List Ev :=
  _read dev bus ctr pos len

/-- `_write_page` (lines 130-163): translate the address, then run the
poll loop around `i2c_write_regs`. -/
def _write_page (dev : st25dvxxx_params) (bus : Nat → Int) (ctr pos : Nat)
    (data : List Nat) : Int × Nat × List Ev :=
  pollLoop bus (writeEv dev pos data) ctr dev.max_polls

/-- Loop body of `_write` (lines 165-186):

    while (len) {
        size_t clen = MIN(len, DEV_PAGE_SIZE - MOD_POW2(pos, DEV_PAGE_SIZE));
        check = _write_page(dev, pos, cdata, clen);
        if (!check) { len -= clen; pos += clen; cdata += clen; }
        else { break; }
    }
    return check;

The buffer is a `List Nat` (so `len = data.length`); `pos` is
`uint32_t`, hence the `% 2 ^ 32` on the advance.  Returns
`(check, next oracle index, events)`; `none` is fuel exhaustion, which
cannot happen when `fuel ≥ data.length` and `page_size ≥ 1`. -/
def writeGo (dev : st25dvxxx_params) (bus : Nat → Int) :
    Nat → Nat → Nat → List Nat → Option (Int × Nat × List Ev)
  | 0, ctr, _, data => if data.length = 0 then some (0, ctr, []) else none
  | fuel+1, ctr, pos, data =>
    if data.length = 0 then some (0, ctr, [])
    else
      let clen := min data.length (dev.page_size - MOD_POW2 pos dev.page_size)
      let r := _write_page dev bus ctr pos (data.take clen)
      if r.1 = 0 then
        match writeGo dev bus fuel (ctr + r.2.1) ((pos + clen) % 2 ^ 32) (data.drop clen) with
        | some (c, ctr', evs) => some (c, ctr', r.2.2 ++ evs)
        | none => none
      else some (r.1, ctr + r.2.1, r.2.2)

/-- `_write` (lines 165-186), with fuel `data.length` (each iteration
consumes at least one byte whenever `page_size ≥ 1`). -/
def _write (dev : st25dvxxx_params) (bus : Nat → Int) (ctr pos : Nat)
    (data : List Nat) : Option (Int × Nat × List Ev) :=
  writeGo dev bus data.length ctr pos data

/-- Loop body of `_set` (lines 188-207):

    int check;
    uint8_t set_buffer[ST25DVXXX_SET_BUF_SIZE];
    memset(set_buffer, val, sizeof(set_buffer));
    while (len) {
        size_t clen = MIN(sizeof(set_buffer), len);
        check = _write(dev, pos, set_buffer, clen);
        if (!check) { len -= clen; pos += clen; }
        else { break; }
    }
    return check;

`check : Option Int` carries the value of the local variable `check`;
the caller passes `none` because C leaves it uninitialized, and it
stays `none` exactly when the loop body never runs.  The last result
component records the `(pos, buffer prefix)` arguments of each
delegated `_write` call.  The outer `none` is fuel exhaustion, which
cannot happen when `fuel ≥ len` and `page_size ≥ 1`. -/
def setGo (dev : st25dvxxx_params) (bus : Nat → Int) (val : Nat) :
    Nat → Nat → Nat → Nat → Option Int →
    Option (Option Int × Nat × List Ev × List (Nat × List Nat))
  | 0, ctr, _, len, check => if len = 0 then some (check, ctr, [], []) else none
  | fuel+1, ctr, pos, len, check =>
    if len = 0 then some (check, ctr, [], [])
    else
      let clen := min ST25DVXXX_SET_BUF_SIZE len
      let buf := List.replicate clen val
      match _write dev bus ctr pos buf with
      | none => none
      | some (c, ctr', evs) =>
        if c = 0 then
          match setGo dev bus val fuel ctr' ((pos + clen) % 2 ^ 32) (len - clen) (some c) with
          | some (check', ctr'', evs', dels) =>
            some (check', ctr'', evs ++ evs', (pos, buf) :: dels)
          | none => none
        else some (some c, ctr', evs, [(pos, buf)])

/-- `_set` (lines 188-207), with fuel `len` and the uninitialized
`check` passed as `none`. -/
def _set (dev : st25dvxxx_params) (bus : Nat → Int) (ctr pos val len : Nat) :
    Option (Option Int × Nat × List Ev × List (Nat × List Nat)) :=
  setGo dev bus val len ctr pos len none

/-- `st25dvxxx_read_byte` (lines 225-235). -/
def st25dvxxx_read_byte (dev : st25dvxxx_params) (bus : Nat → Int) (pos : Nat) :
    Int × List Ev :=
  if dev.eeprom_size ≤ pos then (-ERANGE_errno, [])
  else
    let r := _read dev bus 0 pos 1
    (r.1, Ev.acq :: r.2.2 ++ [Ev.rel])

/-- `st25dvxxx_read` (lines 237-251).  The bounds check `pos + len >
DEV_EEPROM_SIZE` is computed in `size_t`/`uint32_t` arithmetic, i.e.
modulo `2 ^ 32` on the 32-bit targets modelled here. -/
def st25dvxxx_read (dev : st25dvxxx_params) (bus : Nat → Int) (pos len : Nat) :
    Int × List Ev :=
  if dev.eeprom_size < (pos + len) % 2 ^ 32 then (-ERANGE_errno, [])
  else if len = 0 then (ST25DVXXX_OK, [])
  else
    let r := _read_max dev bus 0 pos len
    (r.1, Ev.acq :: r.2.2 ++ [Ev.rel])

/-- `st25dvxxx_write_byte` (lines 253-263). -/
def st25dvxxx_write_byte (dev : st25dvxxx_params) (bus : Nat → Int)
    (pos b : Nat) : Option (Int × List Ev) :=
  if dev.eeprom_size ≤ pos then some (-ERANGE_errno, [])
  else
    match _write dev bus 0 pos [b] with
    | some (c, _, evs) => some (c, Ev.acq :: evs ++ [Ev.rel])
    | none => none

/-- `st25dvxxx_write` (lines 265-279), bounds check modulo `2 ^ 32` as
in `st25dvxxx_read`. -/
def st25dvxxx_write (dev : st25dvxxx_params) (bus : Nat → Int) (pos : Nat)
    (data : List Nat) : Option (Int × List Ev) :=
  if dev.eeprom_size < (pos + data.length) % 2 ^ 32 then some (-ERANGE_errno, [])
  else if data.length = 0 then some (ST25DVXXX_OK, [])
  else
    match _write dev bus 0 pos data with
    | some (c, _, evs) => some (c, Ev.acq :: evs ++ [Ev.rel])
    | none => none

/-- `st25dvxxx_set` (lines 281-295).  The result `Int` is wrapped in
`Option`: `some none` would mean `_set`'s uninitialized `check` was
returned. -/
def st25dvxxx_set (dev : st25dvxxx_params) (bus : Nat → Int)
    (pos val len : Nat) : Option (Option Int × List Ev) :=
  if dev.eeprom_size < (pos + len) % 2 ^ 32 then some (some (-ERANGE_errno), [])
  else if len = 0 then some (some ST25DVXXX_OK, [])
  else
    match _set dev bus 0 pos val len with
    | some (check, _, evs, _) => some (check, Ev.acq :: evs ++ [Ev.rel])
    | none => none

/-- `st25dvxxx_clear` (lines 297-300). -/
def st25dvxxx_clear (dev : st25dvxxx_params) (bus : Nat → Int) (pos len : Nat) :
    Option (Option Int × List Ev) :=
  st25dvxxx_set dev bus pos ST25DVXXX_CLEAR_BYTE len

/-- `st25dvxxx_erase` (lines 302-305). -/
def st25dvxxx_erase (dev : st25dvxxx_params) (bus : Nat → Int) :
    Option (Option Int × List Ev) :=
  st25dvxxx_clear dev bus 0 dev.eeprom_size

/-- `st25dvxxx_enable_write_protect` (lines 307-314). -/
def st25dvxxx_enable_write_protect (dev : st25dvxxx_params) : Int × List Ev :=
  match dev.pin_wp with
  | none => (-ENOTSUP_errno, [])
  | some pin => (ST25DVXXX_OK, [Ev.gpioSet pin])

/-- `st25dvxxx_disable_write_protect` (lines 316-323). -/
def st25dvxxx_disable_write_protect (dev : st25dvxxx_params) : Int × List Ev :=
  match dev.pin_wp with
  | none => (-ENOTSUP_errno, [])
  | some pin => (ST25DVXXX_OK, [Ev.gpioClear pin])

/-! ## Test fixtures -/

/-- An AT24C02-like configuration: 256 bytes capacity, 8-byte pages,
7-bit base address `0x50`, write-protect pin 4, 6 poll attempts. -/
def dev0 : st25dvxxx_params :=
  { i2c := 0, pin_wp := some 4, eeprom_size := 256, dev_addr := 0x50,
    page_size := 8, max_polls := 6 }

/-- A configuration without a write-protect pin and with
`max_polls = 0` (the wraparound case of C9). -/
def devNoWp : st25dvxxx_params :=
  { i2c := 0, pin_wp := none, eeprom_size := 256, dev_addr := 0x50,
    page_size := 8, max_polls := 0 }

/-- A large-capacity configuration (16-bit addressing). -/
def devBig : st25dvxxx_params :=
  { i2c := 0, pin_wp := some 7, eeprom_size := 65536, dev_addr := 0x50,
    page_size := 32, max_polls := 3 }

/-- Bus oracle: every transaction succeeds. -/
def busZ : Nat → Int := fun _ => 0

/-- Bus oracle: every transaction returns `-ENXIO` (no acknowledgment). -/
def busN : Nat → Int := fun _ => -ENXIO_errno

/-- Bus oracle: NoAck on the first two transactions, success after. -/
def busF : Nat → Int := fun i => if i < 2 then -ENXIO_errno else 0

/-! ## Poll-loop lemmas -/

/-- The event trace of `n` poll attempts: the transaction `e`, with one
fixed-length sleep between consecutive attempts. -/
def pollTrace (e : Ev) : Nat → List Ev
  | 0 => []
  | 1 => [e]
  | n+2 => e :: Ev.sleep ST25DVXXX_POLL_DELAY_US :: pollTrace e (n+1)

lemma dec8_eq_sub_one (p : Nat) (h1 : 1 ≤ p) (h2 : p ≤ 255) : dec8 p = p - 1 := by
  unfold dec8; omega

lemma pollGo_of_not_nack {bus : Nat → Int} {ctr : Nat}
    (h : bus ctr ≠ -ENXIO_errno) (e : Ev) (fuel polls : Nat) :
    pollGo bus e fuel ctr polls = (bus ctr, 1, [e]) := by
  cases fuel with
  | zero => rfl
  | succ f => simp [pollGo, h]

lemma pollGo_attempts_pos (bus : Nat → Int) (e : Ev) (fuel ctr polls : Nat) :
    1 ≤ (pollGo bus e fuel ctr polls).2.1 := by
  cases fuel with
  | zero => simp [pollGo]
  | succ f =>
    simp only [pollGo]
    split
    · split
      · simp
      · simp
    · simp

lemma pollGo_succeeds (bus : Nat → Int) (e : Ev) :
    ∀ k fuel ctr polls, k < polls → polls ≤ 255 → polls ≤ fuel + 1 →
    (∀ i, i < k → bus (ctr + i) = -ENXIO_errno) →
    bus (ctr + k) ≠ -ENXIO_errno →
    pollGo bus e fuel ctr polls = (bus (ctr + k), k + 1, pollTrace e (k + 1)) := by
  intro k
  induction k with
  | zero =>
    intro fuel ctr polls _ _ _ _ hk
    rw [Nat.add_zero] at hk ⊢
    exact pollGo_of_not_nack hk e fuel polls
  | succ k ih =>
    intro fuel ctr polls hkp h255 hfuel hpre hk
    have h0 : bus ctr = -ENXIO_errno := by
      have := hpre 0 (Nat.succ_pos k); simpa using this
    have hp2 : 2 ≤ polls := by omega
    have hdec : dec8 polls = polls - 1 := dec8_eq_sub_one polls (by omega) h255
    have hne : polls - 1 ≠ 0 := by omega
    cases fuel with
    | zero => omega
    | succ f =>
      have hrec := ih f (ctr + 1) (polls - 1) (by omega) (by omega) (by omega)
        (fun i hi => by
          have := hpre (i + 1) (by omega)
          simpa [Nat.add_assoc, Nat.add_comm 1 i] using this)
        (by
          have : ctr + 1 + k = ctr + (k + 1) := by omega
          rw [this]; exact hk)
      simp only [pollGo, h0, if_pos rfl, hdec, hne, if_neg hne, hrec]
      have hc : ctr + 1 + k = ctr + (k + 1) := by omega
      simp [hc, pollTrace]

lemma pollGo_exhausts (bus : Nat → Int) (e : Ev) :
    ∀ polls fuel ctr, 1 ≤ polls → polls ≤ 255 → polls ≤ fuel + 1 →
    (∀ i, i < polls → bus (ctr + i) = -ENXIO_errno) →
    pollGo bus e fuel ctr polls = (-ENXIO_errno, polls, pollTrace e polls) := by
  intro polls
  induction polls with
  | zero => intro fuel ctr h1; omega
  | succ p ih =>
    intro fuel ctr _ h255 hfuel hall
    have h0 : bus ctr = -ENXIO_errno := by
      have := hall 0 (Nat.succ_pos p); simpa using this
    have hdec : dec8 (p + 1) = p := by
      have := dec8_eq_sub_one (p + 1) (by omega) h255; omega
    cases Nat.eq_zero_or_pos p with
    | inl hp0 =>
      subst hp0
      cases fuel with
      | zero => simp [pollGo, h0, pollTrace]
      | succ f => simp [pollGo, h0, hdec, pollTrace]
    | inr hp1 =>
      have hne : p ≠ 0 := by omega
      cases fuel with
      | zero => omega
      | succ f =>
        have hrec := ih f (ctr + 1) (by omega) (by omega) (by omega)
          (fun i hi => by
            have := hall (i + 1) (by omega)
            simpa [Nat.add_assoc, Nat.add_comm 1 i] using this)
        simp only [pollGo, h0, if_pos rfl, hdec, if_neg hne, hrec]
        cases p with
        | zero => omega
        | succ m => simp [pollTrace]

lemma pollGo_succ_nack {bus : Nat → Int} {ctr polls : Nat}
    (hn : bus ctr = -ENXIO_errno) (hz : dec8 polls ≠ 0) (e : Ev) (f : Nat) :
    pollGo bus e (f+1) ctr polls =
      ((pollGo bus e f (ctr+1) (dec8 polls)).1,
       (pollGo bus e f (ctr+1) (dec8 polls)).2.1 + 1,
       e :: Ev.sleep ST25DVXXX_POLL_DELAY_US ::
         (pollGo bus e f (ctr+1) (dec8 polls)).2.2) := by
  simp [pollGo, hn, hz]

lemma pollGo_succ_nack_last {bus : Nat → Int} {ctr polls : Nat}
    (hn : bus ctr = -ENXIO_errno) (hz : dec8 polls = 0) (e : Ev) (f : Nat) :
    pollGo bus e (f+1) ctr polls = (-ENXIO_errno, 1, [e]) := by
  simp [pollGo, hn, hz]

lemma pollGo_events (bus : Nat → Int) (e : Ev) :
    ∀ fuel ctr polls x, x ∈ (pollGo bus e fuel ctr polls).2.2 →
      x = e ∨ x = Ev.sleep ST25DVXXX_POLL_DELAY_US := by
  intro fuel
  induction fuel with
  | zero => intro ctr polls x hx; simp [pollGo] at hx; left; exact hx
  | succ f ih =>
    intro ctr polls x hx
    by_cases hn : bus ctr = -ENXIO_errno
    · by_cases hz : dec8 polls = 0
      · rw [pollGo_succ_nack_last hn hz] at hx
        simp at hx; left; exact hx
      · rw [pollGo_succ_nack hn hz] at hx
        rcases List.mem_cons.1 hx with h | hx2
        · left; exact h
        · rcases List.mem_cons.1 hx2 with h | h
          · right; exact h
          · exact ih (ctr + 1) (dec8 polls) x h
    · rw [pollGo_of_not_nack hn] at hx
      simp at hx; left; exact hx

lemma pollLoop_succeeds {bus : Nat → Int} (e : Ev) {ctr polls k : Nat}
    (hk : k < polls) (h255 : polls ≤ 255)
    (hpre : ∀ i, i < k → bus (ctr + i) = -ENXIO_errno)
    (hlast : bus (ctr + k) ≠ -ENXIO_errno) :
    pollLoop bus e ctr polls = (bus (ctr + k), k + 1, pollTrace e (k + 1)) :=
  pollGo_succeeds bus e k 256 ctr polls hk h255 (by omega) hpre hlast

lemma pollLoop_exhausts {bus : Nat → Int} (e : Ev) {ctr polls : Nat}
    (h1 : 1 ≤ polls) (h255 : polls ≤ 255)
    (hall : ∀ i, i < polls → bus (ctr + i) = -ENXIO_errno) :
    pollLoop bus e ctr polls = (-ENXIO_errno, polls, pollTrace e polls) :=
  pollGo_exhausts bus e polls 256 ctr h1 h255 (by omega) hall

lemma pollLoop_zero_polls {bus : Nat → Int} (e : Ev) {ctr : Nat}
    (hall : ∀ i, bus i = -ENXIO_errno) :
    pollLoop bus e ctr 0 = (-ENXIO_errno, 256, pollTrace e 256) := by
  show pollGo bus e (255 + 1) ctr 0 = _
  have hz : dec8 0 = 255 := by unfold dec8; omega
  have hne : dec8 0 ≠ 0 := by omega
  rw [pollGo_succ_nack (hall ctr) hne e 255]
  rw [hz, pollGo_exhausts bus e 255 255 (ctr + 1) (by omega) (by omega) (by omega)
    (fun i _ => hall (ctr + 1 + i))]
  have h2 : pollTrace e 256 = e :: Ev.sleep ST25DVXXX_POLL_DELAY_US :: pollTrace e 255 :=
    rfl
  rw [h2]

/-- C2: for every device with `max_polls` attempts configured (a
nonzero `uint8_t`), the poll-retry executor wrapping one bus read
(`_read`) or page-write (`_write_page`) transaction: (a) if the bus
returns NoAck exactly `k < max_polls` times and then succeeds, it
succeeds after exactly `k + 1` attempts; (b) if the bus returns NoAck
on `max_polls` consecutive attempts, it stops and returns the NoAck
failure; (c) if the bus returns anything other than NoAck on the first
attempt, that result is returned immediately with a single attempt; and
the trace interleaves exactly one fixed 1000-microsecond sleep between
consecutive attempts (`pollTrace`). -/
theorem claim_C2_poll_retry (dev : st25dvxxx_params) (bus : Nat → Int)
    (ctr pos len : Nat) (data : List Nat)
    (h1 : 1 ≤ dev.max_polls) (h255 : dev.max_polls ≤ 255) :
    (∀ k, k < dev.max_polls → (∀ i, i < k → bus (ctr + i) = -ENXIO_errno) →
      bus (ctr + k) = 0 →
      _read dev bus ctr pos len = (0, k + 1, pollTrace (readEv dev pos len) (k + 1)) ∧
      _write_page dev bus ctr pos data =
        (0, k + 1, pollTrace (writeEv dev pos data) (k + 1))) ∧
    ((∀ i, i < dev.max_polls → bus (ctr + i) = -ENXIO_errno) →
      _read dev bus ctr pos len =
        (-ENXIO_errno, dev.max_polls, pollTrace (readEv dev pos len) dev.max_polls) ∧
      _write_page dev bus ctr pos data =
        (-ENXIO_errno, dev.max_polls, pollTrace (writeEv dev pos data) dev.max_polls)) ∧
    (bus ctr ≠ -ENXIO_errno →
      _read dev bus ctr pos len = (bus ctr, 1, [readEv dev pos len]) ∧
      _write_page dev bus ctr pos data = (bus ctr, 1, [writeEv dev pos data])) ∧
    ST25DVXXX_POLL_DELAY_US = 1000 := by
  refine ⟨?_, ?_, ?_, rfl⟩
  · intro k hk hpre hlast
    have hne : bus (ctr + k) ≠ -ENXIO_errno := by
      rw [hlast]; unfold ENXIO_errno; omega
    constructor
    · show pollLoop bus (readEv dev pos len) ctr dev.max_polls = _
      rw [pollLoop_succeeds (readEv dev pos len) hk h255 hpre hne, hlast]
    · show pollLoop bus (writeEv dev pos data) ctr dev.max_polls = _
      rw [pollLoop_succeeds (writeEv dev pos data) hk h255 hpre hne, hlast]
  · intro hall
    exact ⟨pollLoop_exhausts (readEv dev pos len) h1 h255 hall,
           pollLoop_exhausts (writeEv dev pos data) h1 h255 hall⟩
  · intro hne
    constructor
    · show pollGo bus (readEv dev pos len) 256 ctr dev.max_polls = _
      exact pollGo_of_not_nack hne _ _ _
    · show pollGo bus (writeEv dev pos data) 256 ctr dev.max_polls = _
      exact pollGo_of_not_nack hne _ _ _

/-- C2 witness: on `dev0` (`max_polls = 6`), with a bus that NoAcks
twice then succeeds, `_read` succeeds after 3 attempts; with a bus that
always NoAcks, `_write_page` fails with NoAck after 6 attempts. -/
theorem claim_C2_poll_retry_witness :
    _read dev0 busF 0 5 4 = (0, 2 + 1, pollTrace (readEv dev0 5 4) (2 + 1)) ∧
    _write_page dev0 busN 0 5 [1] =
      (-ENXIO_errno, dev0.max_polls, pollTrace (writeEv dev0 5 [1]) dev0.max_polls) := by
  constructor
  · exact ((claim_C2_poll_retry dev0 busF 0 5 4 [1] (by decide) (by decide)).1
      2 (by decide) (by decide) (by decide)).1
  · exact ((claim_C2_poll_retry dev0 busN 0 5 4 [1] (by decide) (by decide)).2.1
      (by decide)).2

/-- C9: the poll-retry loop always issues at least one bus transaction;
because the `uint8_t` attempt counter is decremented before the zero
test, a device configured with `max_polls = 0` makes 256 attempts
(wraparound modulo `2 ^ 8`) on persistent NoAck, while every
`max_polls` between 1 and 255 makes exactly `max_polls` attempts. -/
theorem claim_C9_uint8_poll_wraparound (dev : st25dvxxx_params)
    (bus : Nat → Int) (ctr pos len : Nat) (data : List Nat) :
    (1 ≤ (_read dev bus ctr pos len).2.1 ∧
     1 ≤ (_write_page dev bus ctr pos data).2.1) ∧
    (dev.max_polls = 0 → (∀ i, bus i = -ENXIO_errno) →
      _read dev bus ctr pos len =
        (-ENXIO_errno, 256, pollTrace (readEv dev pos len) 256) ∧
      _write_page dev bus ctr pos data =
        (-ENXIO_errno, 256, pollTrace (writeEv dev pos data) 256)) ∧
    (1 ≤ dev.max_polls → dev.max_polls ≤ 255 → (∀ i, bus i = -ENXIO_errno) →
      (_read dev bus ctr pos len).2.1 = dev.max_polls ∧
      (_write_page dev bus ctr pos data).2.1 = dev.max_polls) := by
  refine ⟨⟨pollGo_attempts_pos bus _ 256 ctr dev.max_polls,
           pollGo_attempts_pos bus _ 256 ctr dev.max_polls⟩, ?_, ?_⟩
  · intro h0 hall
    rw [show _read dev bus ctr pos len =
          pollLoop bus (readEv dev pos len) ctr dev.max_polls from rfl,
        show _write_page dev bus ctr pos data =
          pollLoop bus (writeEv dev pos data) ctr dev.max_polls from rfl, h0]
    exact ⟨pollLoop_zero_polls _ hall, pollLoop_zero_polls _ hall⟩
  · intro h1 h255 hall
    rw [show _read dev bus ctr pos len =
          pollLoop bus (readEv dev pos len) ctr dev.max_polls from rfl,
        show _write_page dev bus ctr pos data =
          pollLoop bus (writeEv dev pos data) ctr dev.max_polls from rfl]
    rw [pollLoop_exhausts _ h1 h255 (fun i _ => hall (ctr + i)),
        pollLoop_exhausts _ h1 h255 (fun i _ => hall (ctr + i))]
    exact ⟨rfl, rfl⟩

/-- C9 witness: `devNoWp` has `max_polls = 0`; on a persistently
NoAcking bus, `_read` makes 256 attempts, and on `dev0`
(`max_polls = 6`) it makes 6. -/
theorem claim_C9_uint8_poll_wraparound_witness :
    _read devNoWp busN 0 0 1 =
      (-ENXIO_errno, 256, pollTrace (readEv devNoWp 0 1) 256) ∧
    (_read dev0 busN 0 0 1).2.1 = dev0.max_polls := by
  constructor
  · exact ((claim_C9_uint8_poll_wraparound devNoWp busN 0 0 1 []).2.1
      (by decide) (fun i => rfl)).1
  · exact ((claim_C9_uint8_poll_wraparound dev0 busN 0 0 1 []).2.2
      (by decide) (by decide) (fun i => rfl)).1

/-! ## Address translation (C3) -/

lemma and_mask_shr (x n : Nat) :
    (x &&& ((2 ^ 8 - 1) <<< n)) >>> n = (x >>> n) &&& (2 ^ 8 - 1) := by
  apply Nat.eq_of_testBit_eq
  intro i
  simp [Nat.testBit_shiftRight, Nat.testBit_and, Nat.testBit_shiftLeft,
    Nat.testBit_two_pow_sub_one]

/-- C3: for every linear offset `pos`, the address translation used by
both the read path and the page-write path selects, when the capacity
exceeds 2048 bytes, 16-bit in-transaction addressing with physical
chip-select byte `base ||| ((pos >>> 16) &&& 0xFF)` and transaction
address `pos &&& 0xFFFF`; and when the capacity is at most 2048 bytes,
8-bit addressing with physical byte `base ||| ((pos >>> 8) &&& 0xFF)`
and transaction address `pos &&& 0xFF`.  The last two conjuncts record
that `_read` and `_write_page` issue their transactions with exactly
this translation. -/
theorem claim_C3_address_translation (dev : st25dvxxx_params) (pos : Nat) :
    ((2048 < dev.eeprom_size →
        _dev_addr dev pos = dev.dev_addr ||| ((pos >>> 16) &&& 0xFF) ∧
        _txn_addr dev pos = pos &&& 0xFFFF ∧ _reg16 dev = true) ∧
     (dev.eeprom_size ≤ 2048 →
        _dev_addr dev pos = dev.dev_addr ||| ((pos >>> 8) &&& 0xFF) ∧
        _txn_addr dev pos = pos &&& 0xFF ∧ _reg16 dev = false)) ∧
    (∀ bus ctr len, _read dev bus ctr pos len =
        pollLoop bus (Ev.rd (_dev_addr dev pos) (_txn_addr dev pos) len
          (_reg16 dev)) ctr dev.max_polls) ∧
    (∀ bus ctr data, _write_page dev bus ctr pos data =
        pollLoop bus (Ev.wr (_dev_addr dev pos) (_txn_addr dev pos) data
          (_reg16 dev)) ctr dev.max_polls) := by
  refine ⟨⟨?_, ?_⟩, fun bus ctr len => rfl, fun bus ctr data => rfl⟩
  · intro h
    have h16 : (0xFF0000 : Nat) = (2 ^ 8 - 1) <<< 16 := by decide
    have hFF : (0xFF : Nat) = 2 ^ 8 - 1 := by decide
    refine ⟨?_, ?_, ?_⟩
    · rw [_dev_addr, if_pos h, h16, hFF, and_mask_shr]
    · rw [_txn_addr, if_pos h]
    · simp [_reg16, h]
  · intro h
    have hnot : ¬ 2048 < dev.eeprom_size := by omega
    have h8 : (0xFF00 : Nat) = (2 ^ 8 - 1) <<< 8 := by decide
    have hFF : (0xFF : Nat) = 2 ^ 8 - 1 := by decide
    refine ⟨?_, ?_, ?_⟩
    · rw [_dev_addr, if_neg hnot, h8, hFF, and_mask_shr]
    · rw [_txn_addr, if_neg hnot]
    · simp [_reg16, hnot]

/-- C3 witness: on the 64-KiB device the translation of `pos = 0x12345`
folds `0x01` into the chip address and keeps `0x2345`; on the 256-byte
device `pos = 0x145` folds `0x01` and keeps `0x45`. -/
theorem claim_C3_address_translation_witness :
    _dev_addr devBig 0x12345 = 0x50 ||| ((0x12345 >>> 16) &&& 0xFF) ∧
    _txn_addr devBig 0x12345 = 0x12345 &&& 0xFFFF ∧
    _dev_addr dev0 0x145 = 0x50 ||| ((0x145 >>> 8) &&& 0xFF) ∧
    _txn_addr dev0 0x145 = 0x145 &&& 0xFF := by
  refine ⟨?_, ?_, ?_, ?_⟩
  · exact (((claim_C3_address_translation devBig 0x12345).1.1) (by decide)).1
  · exact (((claim_C3_address_translation devBig 0x12345).1.1) (by decide)).2.1
  · exact (((claim_C3_address_translation dev0 0x145).1.2) (by decide)).1
  · exact (((claim_C3_address_translation dev0 0x145).1.2) (by decide)).2.1

/-! ## Zero-length operations (C5) and write protection (C8) -/

/-- C5: for every device and every in-bounds position, `read`, `write`
and `set` with length 0 return success with an empty event trace — the
bus collaborator is never invoked, not even for acquire/release. -/
theorem claim_C5_zero_length_noop (dev : st25dvxxx_params) (bus : Nat → Int)
    (pos val : Nat) (hcap : dev.eeprom_size < 2 ^ 32)
    (hpos : pos ≤ dev.eeprom_size) :
    st25dvxxx_read dev bus pos 0 = (ST25DVXXX_OK, []) ∧
    st25dvxxx_write dev bus pos [] = some (ST25DVXXX_OK, []) ∧
    st25dvxxx_set dev bus pos val 0 = some (some ST25DVXXX_OK, []) := by
  have hmod : (pos + 0) % 2 ^ 32 = pos := by omega
  have hnot : ¬ dev.eeprom_size < (pos + 0) % 2 ^ 32 := by omega
  refine ⟨?_, ?_, ?_⟩
  · rw [st25dvxxx_read, if_neg hnot, if_pos rfl]
  · rw [st25dvxxx_write]
    simp only [List.length_nil]
    rw [if_neg hnot]
    simp
  · rw [st25dvxxx_set, if_neg hnot, if_pos rfl]

/-- C5 witness: zero-length read, write and set at position 5 of `dev0`
succeed without any bus event. -/
theorem claim_C5_zero_length_noop_witness :
    st25dvxxx_read dev0 busZ 5 0 = (ST25DVXXX_OK, []) ∧
    st25dvxxx_write dev0 busZ 5 [] = some (ST25DVXXX_OK, []) ∧
    st25dvxxx_set dev0 busZ 5 0xAB 0 = some (some ST25DVXXX_OK, []) :=
  claim_C5_zero_length_noop dev0 busZ 5 0xAB (by decide) (by decide)

/-- C8: `enable_write_protect` and `disable_write_protect` return
NotSupported when no write-protect pin is configured; otherwise they
drive the configured GPIO line high respectively low and return
success, with no bus event and no retry (the trace is the single GPIO
write). -/
theorem claim_C8_write_protect (dev : st25dvxxx_params) :
    (dev.pin_wp = none →
      st25dvxxx_enable_write_protect dev = (-ENOTSUP_errno, []) ∧
      st25dvxxx_disable_write_protect dev = (-ENOTSUP_errno, [])) ∧
    (∀ pin, dev.pin_wp = some pin →
      st25dvxxx_enable_write_protect dev = (ST25DVXXX_OK, [Ev.gpioSet pin]) ∧
      st25dvxxx_disable_write_protect dev = (ST25DVXXX_OK, [Ev.gpioClear pin])) := by
  constructor
  · intro h
    rw [st25dvxxx_enable_write_protect, st25dvxxx_disable_write_protect, h]
    exact ⟨rfl, rfl⟩
  · intro pin h
    rw [st25dvxxx_enable_write_protect, st25dvxxx_disable_write_protect, h]
    exact ⟨rfl, rfl⟩

/-- C8 witness: `devNoWp` has no pin and yields NotSupported; `dev0`
drives pin 4 high on enable and low on disable. -/
theorem claim_C8_write_protect_witness :
    st25dvxxx_enable_write_protect devNoWp = (-ENOTSUP_errno, []) ∧
    st25dvxxx_enable_write_protect dev0 = (ST25DVXXX_OK, [Ev.gpioSet 4]) ∧
    st25dvxxx_disable_write_protect dev0 = (ST25DVXXX_OK, [Ev.gpioClear 4]) :=
  ⟨((claim_C8_write_protect devNoWp).1 rfl).1,
   ((claim_C8_write_protect dev0).2 4 rfl).1,
   ((claim_C8_write_protect dev0).2 4 rfl).2⟩

/-! ## Page chunking (C1, C7) -/

/-- Modelled from the spec's words (section 4.3): split a write at
`pos` into consecutive chunks with chunk length
`min(remaining length, page_size - (pos mod page_size))`, advancing
until the remaining length reaches zero.  This is the specification
side of the refinement; the code side is `writeGo`. -/
def specWriteChunksGo (page : Nat) : Nat → Nat → List Nat → List (Nat × List Nat)
  | 0, _, _ => []
  | f+1, pos, data =>
    if data.length = 0 then []
    else
      let clen := min data.length (page - pos % page)
      (pos, data.take clen) ::
        specWriteChunksGo page f (pos + clen) (data.drop clen)

/-- The spec's chunk list, with fuel `data.length` (every chunk is
nonempty when `page ≥ 1`). -/
def specWriteChunks (page pos : Nat) (data : List Nat) : List (Nat × List Nat) :=
  specWriteChunksGo page data.length pos data

lemma mod_pow2_eq (x : Nat) {p k : Nat} (h : p = 2 ^ k) :
    MOD_POW2 x p = x % p := by
  subst h; unfold MOD_POW2; exact Nat.and_pow_two_sub_one_eq_mod x k

lemma specWriteChunksGo_succ {page pos f : Nat} {data : List Nat}
    (hne : data.length ≠ 0) :
    specWriteChunksGo page (f+1) pos data =
      (pos, data.take (min data.length (page - pos % page))) ::
        specWriteChunksGo page f (pos + min data.length (page - pos % page))
          (data.drop (min data.length (page - pos % page))) := by
  simp [specWriteChunksGo, hne]

lemma specWriteChunksGo_fuel (page : Nat) (hpage : 1 ≤ page) :
    ∀ f₁ f₂ pos (data : List Nat), data.length ≤ f₁ → data.length ≤ f₂ →
      specWriteChunksGo page f₁ pos data = specWriteChunksGo page f₂ pos data := by
  intro f₁
  induction f₁ with
  | zero =>
    intro f₂ pos data h1 _
    have hz : data.length = 0 := by omega
    cases f₂ <;> simp [specWriteChunksGo, hz]
  | succ f ih =>
    intro f₂ pos data h1 h2
    by_cases hz : data.length = 0
    · cases f₂ <;> simp [specWriteChunksGo, hz]
    · obtain ⟨g, rfl⟩ : ∃ g, f₂ = g + 1 := ⟨f₂ - 1, by omega⟩
      rw [specWriteChunksGo_succ hz, specWriteChunksGo_succ hz]
      have hmin : 1 ≤ min data.length (page - pos % page) := by
        have := Nat.mod_lt pos hpage
        omega
      congr 1
      apply ih
      · rw [List.length_drop]; omega
      · rw [List.length_drop]; omega

lemma specWriteChunks_nil (page pos : Nat) : specWriteChunks page pos [] = [] := by
  simp [specWriteChunks, specWriteChunksGo]

lemma specWriteChunks_cons (page pos : Nat) (data : List Nat)
    (hpage : 1 ≤ page) (hne : data.length ≠ 0) :
    specWriteChunks page pos data =
      (pos, data.take (min data.length (page - pos % page))) ::
        specWriteChunks page (pos + min data.length (page - pos % page))
          (data.drop (min data.length (page - pos % page))) := by
  unfold specWriteChunks
  obtain ⟨m, hm⟩ : ∃ m, data.length = m + 1 := ⟨data.length - 1, by omega⟩
  have hmin : 1 ≤ min data.length (page - pos % page) := by
    have := Nat.mod_lt pos hpage
    omega
  rw [hm, specWriteChunksGo_succ hne, hm]
  congr 1
  apply specWriteChunksGo_fuel page hpage
  · rw [List.length_drop, hm]; omega
  · exact Nat.le_refl _

lemma writeGo_zero_len (dev : st25dvxxx_params) (bus : Nat → Int)
    (fuel ctr pos : Nat) (data : List Nat) (h : data.length = 0) :
    writeGo dev bus fuel ctr pos data = some (0, ctr, []) := by
  cases fuel <;> simp [writeGo, h]

lemma writeGo_succ_eq (dev : st25dvxxx_params) (bus : Nat → Int)
    (f ctr pos : Nat) {data : List Nat} (hne : data.length ≠ 0) :
    writeGo dev bus (f+1) ctr pos data =
      (let clen := min data.length (dev.page_size - MOD_POW2 pos dev.page_size)
       let r := _write_page dev bus ctr pos (data.take clen)
       if r.1 = 0 then
         match writeGo dev bus f (ctr + r.2.1) ((pos + clen) % 2 ^ 32)
             (data.drop clen) with
         | some (c, ctr', evs) => some (c, ctr', r.2.2 ++ evs)
         | none => none
       else some (r.1, ctr + r.2.1, r.2.2)) := by
  simp [writeGo, hne]

lemma writeGo_total (dev : st25dvxxx_params) (bus : Nat → Int)
    (hpage : 1 ≤ dev.page_size) :
    ∀ fuel ctr pos (data : List Nat), data.length ≤ fuel →
    ∃ r, writeGo dev bus fuel ctr pos data = some r := by
  intro fuel
  induction fuel with
  | zero =>
    intro ctr pos data hf
    exact ⟨(0, ctr, []), writeGo_zero_len dev bus 0 ctr pos data (by omega)⟩
  | succ f ih =>
    intro ctr pos data hf
    by_cases hz : data.length = 0
    · exact ⟨(0, ctr, []), writeGo_zero_len dev bus (f+1) ctr pos data hz⟩
    · rw [writeGo_succ_eq dev bus f ctr pos hz]
      have hm : MOD_POW2 pos dev.page_size ≤ dev.page_size - 1 := by
        unfold MOD_POW2; exact Nat.and_le_right
      have hmin : 1 ≤ min data.length (dev.page_size - MOD_POW2 pos dev.page_size) := by
        omega
      set clen := min data.length (dev.page_size - MOD_POW2 pos dev.page_size)
        with hclen
      set r := _write_page dev bus ctr pos (data.take clen) with hr
      by_cases hc : r.1 = 0
      · rw [if_pos hc]
        obtain ⟨rr, hrr⟩ := ih (ctr + r.2.1) ((pos + clen) % 2 ^ 32)
          (data.drop clen) (by rw [List.length_drop]; omega)
        obtain ⟨c, ctr', evs⟩ := rr
        rw [hrr]
        exact ⟨(c, ctr', r.2.2 ++ evs), rfl⟩
      · rw [if_neg hc]
        exact ⟨(r.1, ctr + r.2.1, r.2.2), rfl⟩

lemma zero_ne_nack : (0 : Int) ≠ -ENXIO_errno := by decide

lemma write_page_one {dev : st25dvxxx_params} {bus : Nat → Int} {ctr pos : Nat}
    {data : List Nat} (h : bus ctr ≠ -ENXIO_errno) :
    _write_page dev bus ctr pos data = (bus ctr, 1, [writeEv dev pos data]) :=
  pollGo_of_not_nack h (writeEv dev pos data) 256 dev.max_polls

lemma writeGo_success (dev : st25dvxxx_params) (bus : Nat → Int) {k : Nat}
    (hp : dev.page_size = 2 ^ k) :
    ∀ fuel ctr pos (data : List Nat), data.length ≤ fuel →
    pos + data.length ≤ 2 ^ 32 →
    (∀ i, i < (specWriteChunks dev.page_size pos data).length → bus (ctr + i) = 0) →
    writeGo dev bus fuel ctr pos data =
      some (0, ctr + (specWriteChunks dev.page_size pos data).length,
        (specWriteChunks dev.page_size pos data).map
          (fun pd => writeEv dev pd.1 pd.2)) := by
  intro fuel
  induction fuel with
  | zero =>
    intro ctr pos data hf hw hbus
    have hd : data = [] := List.length_eq_zero.mp (by omega)
    subst hd
    rw [writeGo_zero_len dev bus 0 ctr pos [] rfl, specWriteChunks_nil]
    simp
  | succ f ih =>
    intro ctr pos data hf hw hbus
    by_cases hz : data.length = 0
    · have hd : data = [] := List.length_eq_zero.mp hz
      subst hd
      rw [writeGo_zero_len dev bus (f+1) ctr pos [] rfl, specWriteChunks_nil]
      simp
    · have hpage : 1 ≤ dev.page_size := by rw [hp]; exact Nat.one_le_two_pow
      have hmodlt : pos % dev.page_size < dev.page_size := Nat.mod_lt pos hpage
      have hmod : MOD_POW2 pos dev.page_size = pos % dev.page_size :=
        mod_pow2_eq pos hp
      rw [writeGo_succ_eq dev bus f ctr pos hz, hmod]
      dsimp only
      set clen := min data.length (dev.page_size - pos % dev.page_size) with hclen
      have hclen1 : 1 ≤ clen := by rw [hclen]; omega
      have hclenle : clen ≤ data.length := Nat.min_le_left _ _
      have hchunks := specWriteChunks_cons dev.page_size pos data hpage hz
      rw [← hclen] at hchunks
      have hb0 : bus ctr = 0 := by
        have := hbus 0 (by rw [hchunks]; simp)
        simpa using this
      have hb0' : bus ctr ≠ -ENXIO_errno := by rw [hb0]; decide
      have hwp : _write_page dev bus ctr pos (data.take clen) =
          (0, 1, [writeEv dev pos (data.take clen)]) := by
        rw [write_page_one hb0', hb0]
      rw [hwp]
      dsimp only
      rw [if_pos rfl]
      by_cases hrest : data.length - clen = 0
      · have hdrop : data.drop clen = [] :=
          List.length_eq_zero.mp (by rw [List.length_drop]; omega)
        rw [hdrop, writeGo_zero_len dev bus f (ctr + 1) ((pos + clen) % 2 ^ 32) [] rfl]
        rw [hchunks, hdrop, specWriteChunks_nil]
        simp
      · have hkey : pos + clen < 2 ^ 32 := by omega
        have hmodid : (pos + clen) % 2 ^ 32 = pos + clen := Nat.mod_eq_of_lt hkey
        have hbus' : ∀ i, i < (specWriteChunks dev.page_size (pos + clen)
            (data.drop clen)).length → bus (ctr + 1 + i) = 0 := by
          intro i hi
          have hlen : i + 1 < (specWriteChunks dev.page_size pos data).length := by
            rw [hchunks]; simpa using Nat.succ_lt_succ hi
          have := hbus (i + 1) hlen
          have hc : ctr + (i + 1) = ctr + 1 + i := by omega
          rwa [hc] at this
        rw [hmodid, ih (ctr + 1) (pos + clen) (data.drop clen)
          (by rw [List.length_drop]; omega)
          (by rw [List.length_drop]; omega) hbus']
        rw [hchunks]
        simp
        omega

lemma writeGo_fails (dev : st25dvxxx_params) (bus : Nat → Int) {k : Nat}
    (hp : dev.page_size = 2 ^ k) :
    ∀ fuel t ctr pos (data : List Nat), data.length ≤ fuel →
    pos + data.length ≤ 2 ^ 32 →
    t < (specWriteChunks dev.page_size pos data).length →
    (∀ i, i < t → bus (ctr + i) = 0) →
    bus (ctr + t) ≠ 0 → bus (ctr + t) ≠ -ENXIO_errno →
    writeGo dev bus fuel ctr pos data =
      some (bus (ctr + t), ctr + t + 1,
        ((specWriteChunks dev.page_size pos data).take (t + 1)).map
          (fun pd => writeEv dev pd.1 pd.2)) := by
  intro fuel
  induction fuel with
  | zero =>
    intro t ctr pos data hf hw ht hpre hbt hbn
    have hd : data = [] := List.length_eq_zero.mp (by omega)
    subst hd
    rw [specWriteChunks_nil] at ht
    simp at ht
  | succ f ih =>
    intro t ctr pos data hf hw ht hpre hbt hbn
    by_cases hz : data.length = 0
    · have hd : data = [] := List.length_eq_zero.mp hz
      subst hd
      rw [specWriteChunks_nil] at ht
      simp at ht
    · have hpage : 1 ≤ dev.page_size := by rw [hp]; exact Nat.one_le_two_pow
      have hmodlt : pos % dev.page_size < dev.page_size := Nat.mod_lt pos hpage
      have hmod : MOD_POW2 pos dev.page_size = pos % dev.page_size :=
        mod_pow2_eq pos hp
      rw [writeGo_succ_eq dev bus f ctr pos hz, hmod]
      dsimp only
      set clen := min data.length (dev.page_size - pos % dev.page_size) with hclen
      have hclen1 : 1 ≤ clen := by rw [hclen]; omega
      have hclenle : clen ≤ data.length := Nat.min_le_left _ _
      have hchunks := specWriteChunks_cons dev.page_size pos data hpage hz
      rw [← hclen] at hchunks
      cases t with
      | zero =>
        have hb0' : bus ctr ≠ -ENXIO_errno := by simpa using hbn
        rw [write_page_one hb0']
        dsimp only
        rw [if_neg (by simpa using hbt)]
        rw [hchunks]
        simp
      | succ s =>
        have hb0 : bus ctr = 0 := by simpa using hpre 0 (by omega)
        have hb0' : bus ctr ≠ -ENXIO_errno := by rw [hb0]; decide
        have hwp : _write_page dev bus ctr pos (data.take clen) =
            (0, 1, [writeEv dev pos (data.take clen)]) := by
          rw [write_page_one hb0', hb0]
        rw [hwp]
        dsimp only
        rw [if_pos rfl]
        have htail : s < (specWriteChunks dev.page_size (pos + clen)
            (data.drop clen)).length := by
          rw [hchunks] at ht; simpa using ht
        have hrest : 1 ≤ data.length - clen := by
          by_contra hx
          have hdrop : data.drop clen = [] :=
            List.length_eq_zero.mp (by rw [List.length_drop]; omega)
          rw [hdrop, specWriteChunks_nil] at htail
          simp at htail
        have hkey : pos + clen < 2 ^ 32 := by omega
        have hmodid : (pos + clen) % 2 ^ 32 = pos + clen := Nat.mod_eq_of_lt hkey
        have hpre' : ∀ i, i < s → bus (ctr + 1 + i) = 0 := by
          intro i hi
          have := hpre (i + 1) (by omega)
          have hc : ctr + (i + 1) = ctr + 1 + i := by omega
          rwa [hc] at this
        have hshift : ctr + (s + 1) = ctr + 1 + s := by omega
        rw [hmodid, ih s (ctr + 1) (pos + clen) (data.drop clen)
          (by rw [List.length_drop]; omega)
          (by rw [List.length_drop]; omega) htail hpre'
          (by rw [← hshift]; exact hbt) (by rw [← hshift]; exact hbn)]
        rw [hchunks]
        simp only [List.take_succ_cons, List.map_cons]
        rw [hshift]
        simp

lemma wr_event_shape {dev : st25dvxxx_params} {pos : Nat} {chunk : List Nat}
    {a t : Nat} {d : List Nat} {fl : Bool}
    (h : Ev.wr a t d fl = writeEv dev pos chunk ∨
         Ev.wr a t d fl = Ev.sleep ST25DVXXX_POLL_DELAY_US) :
    a = _dev_addr dev pos ∧ t = _txn_addr dev pos ∧ fl = _reg16 dev ∧ d = chunk := by
  rcases h with h | h
  · rw [writeEv] at h
    injection h with h1 h2 h3 h4
    exact ⟨h1, h2, h4, h3⟩
  · exact Ev.noConfusion h

lemma writeGo_wr_events (dev : st25dvxxx_params) (bus : Nat → Int) :
    ∀ fuel ctr pos (data : List Nat) r, writeGo dev bus fuel ctr pos data = some r →
    ∀ a t d fl, Ev.wr a t d fl ∈ r.2.2 →
    ∃ p, a = _dev_addr dev p ∧ t = _txn_addr dev p ∧ fl = _reg16 dev ∧
      d.length ≤ dev.page_size - MOD_POW2 p dev.page_size := by
  intro fuel
  induction fuel with
  | zero =>
    intro ctr pos data r hr a t d fl hm
    by_cases hz : data.length = 0
    · rw [writeGo_zero_len dev bus 0 ctr pos data hz] at hr
      obtain rfl : (0, ctr, ([] : List Ev)) = r := Option.some.inj hr
      simp at hm
    · simp [writeGo, hz] at hr
  | succ f ih =>
    intro ctr pos data r hr a t d fl hm
    by_cases hz : data.length = 0
    · rw [writeGo_zero_len dev bus (f+1) ctr pos data hz] at hr
      obtain rfl : (0, ctr, ([] : List Ev)) = r := Option.some.inj hr
      simp at hm
    · rw [writeGo_succ_eq dev bus f ctr pos hz] at hr
      dsimp only at hr
      set clen := min data.length (dev.page_size - MOD_POW2 pos dev.page_size)
        with hclen
      set w := _write_page dev bus ctr pos (data.take clen) with hwdef
      have hwev : ∀ x, x ∈ w.2.2 → x = writeEv dev pos (data.take clen) ∨
          x = Ev.sleep ST25DVXXX_POLL_DELAY_US := by
        intro x hx
        exact pollGo_events bus (writeEv dev pos (data.take clen)) 256 ctr
          dev.max_polls x hx
      have hlen : (data.take clen).length ≤
          dev.page_size - MOD_POW2 pos dev.page_size := by
        rw [List.length_take]
        have := Nat.min_le_right data.length
          (dev.page_size - MOD_POW2 pos dev.page_size)
        rw [← hclen] at this
        omega
      by_cases hc : w.1 = 0
      · rw [if_pos hc] at hr
        cases hww : writeGo dev bus f (ctr + w.2.1) ((pos + clen) % 2 ^ 32)
            (data.drop clen) with
        | none => rw [hww] at hr; cases hr
        | some rr =>
          obtain ⟨c, ctr', evs⟩ := rr
          rw [hww] at hr
          obtain rfl : (c, ctr', w.2.2 ++ evs) = r := Option.some.inj hr
          rcases List.mem_append.1 hm with hmem | hmem
          · refine ⟨pos, ?_⟩
            obtain ⟨h1, h2, h3, h4⟩ := wr_event_shape (hwev _ hmem)
            exact ⟨h1, h2, h3, by rw [h4]; exact hlen⟩
          · exact ih (ctr + w.2.1) ((pos + clen) % 2 ^ 32) (data.drop clen)
              (c, ctr', evs) hww a t d fl hmem
      · rw [if_neg hc] at hr
        obtain rfl : (w.1, ctr + w.2.1, w.2.2) = r := Option.some.inj hr
        refine ⟨pos, ?_⟩
        obtain ⟨h1, h2, h3, h4⟩ := wr_event_shape (hwev _ hm)
        exact ⟨h1, h2, h3, by rw [h4]; exact hlen⟩

lemma txn_addr_mod {dev : st25dvxxx_params} {k : Nat} (hp : dev.page_size = 2 ^ k)
    (hk : k ≤ 7) (p : Nat) :
    _txn_addr dev p % dev.page_size = p % dev.page_size := by
  unfold _txn_addr
  by_cases h : 2048 < dev.eeprom_size
  · rw [if_pos h]
    have h16 : (0xFFFF : Nat) = 2 ^ 16 - 1 := by decide
    rw [h16, Nat.and_pow_two_sub_one_eq_mod, hp]
    exact Nat.mod_mod_of_dvd p (pow_dvd_pow 2 (by omega))
  · rw [if_neg h]
    have h8 : (0xFF : Nat) = 2 ^ 8 - 1 := by decide
    rw [h8, Nat.and_pow_two_sub_one_eq_mod, hp]
    exact Nat.mod_mod_of_dvd p (pow_dvd_pow 2 (by omega))

/-- C1: for every device whose page size is a power of two (at most the
128 a `uint8_t` page size allows, i.e. `k ≤ 7`) and every starting
offset and buffer, the page-chunking writer `_write` (a) never issues a
write transaction whose `[txn_addr, txn_addr + chunk_len)` range
crosses a page boundary, whatever the bus answers; and (b) on a
successful run issues exactly the consecutive chunks of
`specWriteChunks`, whose chunk length is
`min(remaining length, page_size - (pos mod page_size))` — so a write
of 6 bytes at `pos = 5` with `page_size = 8` is issued as two 3-byte
transactions (see the witness). -/
theorem claim_C1_page_chunking (dev : st25dvxxx_params) (bus : Nat → Int)
    (ctr pos : Nat) (data : List Nat) (k : Nat)
    (hp : dev.page_size = 2 ^ k) (hk : k ≤ 7) :
    (∀ r, _write dev bus ctr pos data = some r →
      ∀ a t d fl, Ev.wr a t d fl ∈ r.2.2 →
        t % dev.page_size + d.length ≤ dev.page_size) ∧
    ((∀ i, bus i = 0) → pos + data.length ≤ 2 ^ 32 →
      _write dev bus ctr pos data =
        some (0, ctr + (specWriteChunks dev.page_size pos data).length,
          (specWriteChunks dev.page_size pos data).map
            (fun pd => writeEv dev pd.1 pd.2))) := by
  constructor
  · intro r hr a t d fl hm
    obtain ⟨p, h1, h2, h3, h4⟩ :=
      writeGo_wr_events dev bus data.length ctr pos data r hr a t d fl hm
    have hpage : 1 ≤ dev.page_size := by rw [hp]; exact Nat.one_le_two_pow
    have hmod := mod_pow2_eq p hp
    have htx := txn_addr_mod hp hk p
    have hplt : p % dev.page_size < dev.page_size := Nat.mod_lt p hpage
    rw [h2, htx]
    rw [hmod] at h4
    omega
  · intro hbz hw
    exact writeGo_success dev bus hp data.length ctr pos data (Nat.le_refl _) hw
      (fun i _ => hbz (ctr + i))

/-- C1 witness: on `dev0` (capacity 256, `page_size = 8`), writing 6
bytes at `pos = 5` over an always-succeeding bus issues exactly two
3-byte transactions, at linear positions 5..7 and 8..10. -/
theorem claim_C1_page_chunking_witness :
    _write dev0 busZ 0 5 [1, 2, 3, 4, 5, 6] =
      some (0, 2, [Ev.wr 0x50 5 [1, 2, 3] false, Ev.wr 0x50 8 [4, 5, 6] false]) := by
  have h := (claim_C1_page_chunking dev0 busZ 0 5 [1, 2, 3, 4, 5, 6] 3 (by decide)
    (by decide)).2 (fun i => rfl) (by decide)
  exact h.trans (by decide)

/-! ## Fill delegations (C6, C7, C10) -/

/-- Modelled from the spec's words (section 4.4): the fill operation
delegates to the page-chunking writer consecutive chunks of size
`min(scratch size, remaining length)`, each carrying that prefix of the
32-byte scratch buffer filled with the byte, until the length reaches
zero. -/
def specFillDelegsGo (val : Nat) : Nat → Nat → Nat → List (Nat × List Nat)
  | 0, _, _ => []
  | f+1, pos, len =>
    if len = 0 then []
    else
      let clen := min ST25DVXXX_SET_BUF_SIZE len
      (pos, List.replicate clen val) ::
        specFillDelegsGo val f (pos + clen) (len - clen)

/-- The spec's delegation list, with fuel `len` (every chunk is
nonempty). -/
def specFillDelegs (pos val len : Nat) : List (Nat × List Nat) :=
  specFillDelegsGo val len pos len

/-- The page-level transaction list of a whole fill: concatenation of
the page chunks of each delegated write. -/
def fillTxns (page pos val len : Nat) : List (Nat × List Nat) :=
  (specFillDelegs pos val len).flatMap (fun pd => specWriteChunks page pd.1 pd.2)

lemma specFillDelegsGo_succ {val pos len f : Nat} (hne : len ≠ 0) :
    specFillDelegsGo val (f+1) pos len =
      (pos, List.replicate (min ST25DVXXX_SET_BUF_SIZE len) val) ::
        specFillDelegsGo val f (pos + min ST25DVXXX_SET_BUF_SIZE len)
          (len - min ST25DVXXX_SET_BUF_SIZE len) := by
  simp [specFillDelegsGo, hne]

lemma specFillDelegsGo_fuel (val : Nat) :
    ∀ f₁ f₂ pos len, len ≤ f₁ → len ≤ f₂ →
      specFillDelegsGo val f₁ pos len = specFillDelegsGo val f₂ pos len := by
  intro f₁
  induction f₁ with
  | zero =>
    intro f₂ pos len h1 _
    have hz : len = 0 := by omega
    cases f₂ <;> simp [specFillDelegsGo, hz]
  | succ f ih =>
    intro f₂ pos len h1 h2
    by_cases hz : len = 0
    · cases f₂ <;> simp [specFillDelegsGo, hz]
    · obtain ⟨g, rfl⟩ : ∃ g, f₂ = g + 1 := ⟨f₂ - 1, by omega⟩
      rw [specFillDelegsGo_succ hz, specFillDelegsGo_succ hz]
      have hmin : 1 ≤ min ST25DVXXX_SET_BUF_SIZE len := by
        unfold ST25DVXXX_SET_BUF_SIZE; omega
      congr 1
      apply ih <;> omega

lemma specFillDelegs_nil (pos val : Nat) : specFillDelegs pos val 0 = [] := by
  simp [specFillDelegs, specFillDelegsGo]

lemma specFillDelegs_cons (pos val len : Nat) (hne : len ≠ 0) :
    specFillDelegs pos val len =
      (pos, List.replicate (min ST25DVXXX_SET_BUF_SIZE len) val) ::
        specFillDelegs (pos + min ST25DVXXX_SET_BUF_SIZE len) val
          (len - min ST25DVXXX_SET_BUF_SIZE len) := by
  unfold specFillDelegs
  obtain ⟨m, hm⟩ : ∃ m, len = m + 1 := ⟨len - 1, by omega⟩
  have hmin : 1 ≤ min ST25DVXXX_SET_BUF_SIZE len := by
    unfold ST25DVXXX_SET_BUF_SIZE; omega
  rw [hm, specFillDelegsGo_succ (by omega)]
  congr 1
  apply specFillDelegsGo_fuel <;> omega

lemma setGo_zero_len (dev : st25dvxxx_params) (bus : Nat → Int)
    (val fuel ctr pos : Nat) (check : Option Int) :
    setGo dev bus val fuel ctr pos 0 check = some (check, ctr, [], []) := by
  cases fuel <;> simp [setGo]

lemma setGo_succ_eq (dev : st25dvxxx_params) (bus : Nat → Int)
    (val f ctr pos len : Nat) (check : Option Int) (hne : len ≠ 0) :
    setGo dev bus val (f+1) ctr pos len check =
      (let clen := min ST25DVXXX_SET_BUF_SIZE len
       let buf := List.replicate clen val
       match _write dev bus ctr pos buf with
       | none => none
       | some (c, ctr', evs) =>
         if c = 0 then
           match setGo dev bus val f ctr' ((pos + clen) % 2 ^ 32)
               (len - clen) (some c) with
           | some (check', ctr'', evs', dels) =>
             some (check', ctr'', evs ++ evs', (pos, buf) :: dels)
           | none => none
         else some (some c, ctr', evs, [(pos, buf)])) := by
  simp [setGo, hne]

lemma setGo_total (dev : st25dvxxx_params) (bus : Nat → Int)
    (hpage : 1 ≤ dev.page_size) (val : Nat) :
    ∀ fuel ctr pos len (check : Option Int), len ≤ fuel →
    ∃ c n evs dels,
      setGo dev bus val fuel ctr pos len check = some (c, n, evs, dels) ∧
      (len = 0 → c = check) ∧ (1 ≤ len → ∃ x, c = some x) := by
  intro fuel
  induction fuel with
  | zero =>
    intro ctr pos len check hf
    have hz : len = 0 := by omega
    subst hz
    exact ⟨check, ctr, [], [], setGo_zero_len dev bus val 0 ctr pos check,
      fun _ => rfl, by omega⟩
  | succ f ih =>
    intro ctr pos len check hf
    by_cases hz : len = 0
    · subst hz
      exact ⟨check, ctr, [], [], setGo_zero_len dev bus val (f+1) ctr pos check,
        fun _ => rfl, by omega⟩
    · rw [setGo_succ_eq dev bus val f ctr pos len check hz]
      dsimp only
      set clen := min ST25DVXXX_SET_BUF_SIZE len with hclen
      have hclen1 : 1 ≤ clen := by
        rw [hclen]; unfold ST25DVXXX_SET_BUF_SIZE; omega
      have hclenle : clen ≤ len := Nat.min_le_right _ _
      obtain ⟨⟨c, ctr', evs⟩, hw⟩ := writeGo_total dev bus hpage
        (List.replicate clen val).length ctr pos (List.replicate clen val)
        (Nat.le_refl _)
      have hw' : _write dev bus ctr pos (List.replicate clen val) =
          some (c, ctr', evs) := hw
      rw [hw']
      dsimp only
      by_cases hc : c = 0
      · rw [if_pos hc]
        obtain ⟨c2, n2, evs2, dels2, hrec, hz2, hp2⟩ :=
          ih ctr' ((pos + clen) % 2 ^ 32) (len - clen) (some c) (by omega)
        rw [hrec]
        refine ⟨c2, n2, evs ++ evs2, (pos, List.replicate clen val) :: dels2,
          rfl, fun h => absurd h hz, fun _ => ?_⟩
        by_cases hr : len - clen = 0
        · exact ⟨c, hz2 hr⟩
        · exact hp2 (by omega)
      · rw [if_neg hc]
        exact ⟨some c, ctr', evs, [(pos, List.replicate clen val)], rfl,
          fun h => absurd h hz, fun _ => ⟨c, rfl⟩⟩

lemma setGo_success (dev : st25dvxxx_params) (bus : Nat → Int) {k : Nat}
    (hp : dev.page_size = 2 ^ k) (val : Nat) (hbz : ∀ i, bus i = 0) :
    ∀ fuel ctr pos len (check : Option Int), len ≤ fuel → pos + len ≤ 2 ^ 32 →
    ∃ c n evs, setGo dev bus val fuel ctr pos len check =
      some (c, n, evs, specFillDelegs pos val len) := by
  intro fuel
  induction fuel with
  | zero =>
    intro ctr pos len check hf hw
    have hz : len = 0 := by omega
    subst hz
    rw [specFillDelegs_nil]
    exact ⟨check, ctr, [], setGo_zero_len dev bus val 0 ctr pos check⟩
  | succ f ih =>
    intro ctr pos len check hf hw
    by_cases hz : len = 0
    · subst hz
      rw [specFillDelegs_nil]
      exact ⟨check, ctr, [], setGo_zero_len dev bus val (f+1) ctr pos check⟩
    · rw [setGo_succ_eq dev bus val f ctr pos len check hz]
      dsimp only
      set clen := min ST25DVXXX_SET_BUF_SIZE len with hclen
      have hclen1 : 1 ≤ clen := by
        rw [hclen]; unfold ST25DVXXX_SET_BUF_SIZE; omega
      have hclenle : clen ≤ len := Nat.min_le_right _ _
      have hrep : (List.replicate clen val).length = clen :=
        List.length_replicate clen val
      have hw' : _write dev bus ctr pos (List.replicate clen val) =
          some (0, ctr + (specWriteChunks dev.page_size pos
              (List.replicate clen val)).length,
            (specWriteChunks dev.page_size pos (List.replicate clen val)).map
              (fun pd => writeEv dev pd.1 pd.2)) :=
        writeGo_success dev bus hp (List.replicate clen val).length
          ctr pos (List.replicate clen val) (Nat.le_refl _)
          (by rw [hrep]; omega) (fun i _ => hbz (ctr + i))
      rw [hw']
      dsimp only
      rw [if_pos rfl]
      rw [specFillDelegs_cons pos val len hz, ← hclen]
      by_cases hr : len - clen = 0
      · rw [hr, specFillDelegs_nil, setGo_zero_len]
        dsimp only
        exact ⟨some 0, _, _, by rw [List.append_nil]⟩
      · have hkey : pos + clen < 2 ^ 32 := by omega
        have hmodid : (pos + clen) % 2 ^ 32 = pos + clen := Nat.mod_eq_of_lt hkey
        obtain ⟨c2, n2, evs2, hrec⟩ := ih
          (ctr + (specWriteChunks dev.page_size pos
            (List.replicate clen val)).length)
          (pos + clen) (len - clen) (some 0) (by omega) (by omega)
        rw [hmodid, hrec]
        dsimp only
        exact ⟨c2, n2, _, rfl⟩

lemma fillTxns_nil (page pos val : Nat) : fillTxns page pos val 0 = [] := by
  simp [fillTxns, specFillDelegs_nil]

lemma fillTxns_cons (page pos val len : Nat) (hne : len ≠ 0) :
    fillTxns page pos val len =
      specWriteChunks page pos
          (List.replicate (min ST25DVXXX_SET_BUF_SIZE len) val) ++
        fillTxns page (pos + min ST25DVXXX_SET_BUF_SIZE len) val
          (len - min ST25DVXXX_SET_BUF_SIZE len) := by
  rw [fillTxns, specFillDelegs_cons pos val len hne, List.flatMap_cons]
  rfl

lemma setGo_first_error (dev : st25dvxxx_params) (bus : Nat → Int) {k : Nat}
    (hp : dev.page_size = 2 ^ k) (val : Nat)
    (hnN : ∀ i, bus i ≠ -ENXIO_errno) :
    ∀ fuel t ctr pos len (check : Option Int), len ≤ fuel → pos + len ≤ 2 ^ 32 →
    t < (fillTxns dev.page_size pos val len).length →
    (∀ i, i < t → bus (ctr + i) = 0) → bus (ctr + t) ≠ 0 →
    ∃ dels, setGo dev bus val fuel ctr pos len check =
      some (some (bus (ctr + t)), ctr + t + 1,
        ((fillTxns dev.page_size pos val len).take (t + 1)).map
          (fun pd => writeEv dev pd.1 pd.2), dels) := by
  intro fuel
  induction fuel with
  | zero =>
    intro t ctr pos len check hf hw ht hpre hbt
    have hz : len = 0 := by omega
    subst hz
    rw [fillTxns_nil] at ht
    simp at ht
  | succ f ih =>
    intro t ctr pos len check hf hw ht hpre hbt
    by_cases hz : len = 0
    · subst hz; rw [fillTxns_nil] at ht; simp at ht
    · rw [setGo_succ_eq dev bus val f ctr pos len check hz]
      dsimp only
      set clen := min ST25DVXXX_SET_BUF_SIZE len with hclen
      have hclen1 : 1 ≤ clen := by
        rw [hclen]; unfold ST25DVXXX_SET_BUF_SIZE; omega
      have hclenle : clen ≤ len := Nat.min_le_right _ _
      have hrep : (List.replicate clen val).length = clen :=
        List.length_replicate clen val
      have hftc := fillTxns_cons dev.page_size pos val len hz
      rw [← hclen] at hftc
      by_cases hcase :
          t < (specWriteChunks dev.page_size pos (List.replicate clen val)).length
      · have hw' : _write dev bus ctr pos (List.replicate clen val) =
            some (bus (ctr + t), ctr + t + 1,
              ((specWriteChunks dev.page_size pos
                  (List.replicate clen val)).take (t+1)).map
                (fun pd => writeEv dev pd.1 pd.2)) :=
          writeGo_fails dev bus hp (List.replicate clen val).length t
            ctr pos (List.replicate clen val) (Nat.le_refl _)
            (by rw [hrep]; omega) hcase hpre hbt (hnN _)
        rw [hw']
        dsimp only
        rw [if_neg hbt]
        refine ⟨[(pos, List.replicate clen val)], ?_⟩
        rw [hftc, List.take_append_of_le_length (by omega)]
      · push_neg at hcase
        have hw' : _write dev bus ctr pos (List.replicate clen val) =
            some (0, ctr + (specWriteChunks dev.page_size pos
                (List.replicate clen val)).length,
              (specWriteChunks dev.page_size pos
                (List.replicate clen val)).map
                (fun pd => writeEv dev pd.1 pd.2)) :=
          writeGo_success dev bus hp (List.replicate clen val).length
            ctr pos (List.replicate clen val) (Nat.le_refl _)
            (by rw [hrep]; omega) (fun i hi => hpre i (by omega))
        rw [hw']
        dsimp only
        rw [if_pos rfl]
        have hrest : 1 ≤ len - clen := by
          by_contra hx
          have hr0 : len - clen = 0 := by omega
          rw [hftc, hr0, fillTxns_nil, List.append_nil] at ht
          omega
        have hkey : pos + clen < 2 ^ 32 := by omega
        have hmodid : (pos + clen) % 2 ^ 32 = pos + clen := Nat.mod_eq_of_lt hkey
        have ht' : t - (specWriteChunks dev.page_size pos
              (List.replicate clen val)).length <
            (fillTxns dev.page_size (pos + clen) val (len - clen)).length := by
          rw [hftc, List.length_append] at ht
          omega
        have hpre' : ∀ i, i < t - (specWriteChunks dev.page_size pos
              (List.replicate clen val)).length →
            bus (ctr + (specWriteChunks dev.page_size pos
              (List.replicate clen val)).length + i) = 0 := by
          intro i hi
          have := hpre ((specWriteChunks dev.page_size pos
            (List.replicate clen val)).length + i) (by omega)
          have hc : ctr + ((specWriteChunks dev.page_size pos
              (List.replicate clen val)).length + i) =
              ctr + (specWriteChunks dev.page_size pos
                (List.replicate clen val)).length + i := by
            omega
          rwa [hc] at this
        have hshift : ctr + (specWriteChunks dev.page_size pos
              (List.replicate clen val)).length +
            (t - (specWriteChunks dev.page_size pos
              (List.replicate clen val)).length) = ctr + t := by
          omega
        obtain ⟨dels, hrec⟩ := ih
          (t - (specWriteChunks dev.page_size pos
            (List.replicate clen val)).length)
          (ctr + (specWriteChunks dev.page_size pos
            (List.replicate clen val)).length)
          (pos + clen) (len - clen) (some 0) (by omega) (by omega) ht' hpre'
          (by rw [hshift]; exact hbt)
        rw [hmodid, hrec]
        dsimp only
        refine ⟨(pos, List.replicate clen val) :: dels, ?_⟩
        rw [hshift]
        have htake : t + 1 - (specWriteChunks dev.page_size pos
            (List.replicate clen val)).length =
            t - (specWriteChunks dev.page_size pos
              (List.replicate clen val)).length + 1 := by
          omega
        rw [hftc, List.take_append_eq_append_take,
            List.take_of_length_le
              (by omega : (specWriteChunks dev.page_size pos
                (List.replicate clen val)).length ≤ t + 1),
            List.map_append, htake]

/-- Bus oracle: transaction 1 fails with a non-NoAck I/O error (-5),
all others succeed. -/
def busE : Nat → Int := fun i => if i = 1 then -5 else 0

lemma busE_ne_nack : ∀ i, busE i ≠ -ENXIO_errno := by
  intro i
  unfold busE
  split <;> decide

/-- C6: the fill helper `_set` fills a fixed 32-byte scratch buffer
with the byte and delegates to the page-chunking writer consecutive
chunks of size `min(32, remaining)` carrying that buffer prefix
(`specFillDelegs`), until the length reaches zero; `erase` is exactly a
fill with the clear byte `0x00` from offset 0 over the full capacity,
and `clear(pos, len)` is exactly a fill with `0x00` at `(pos, len)`. -/
theorem claim_C6_fill_and_erase (dev : st25dvxxx_params) (bus : Nat → Int)
    (ctr pos val len : Nat) (k : Nat) (hp : dev.page_size = 2 ^ k)
    (hw : pos + len ≤ 2 ^ 32) (hbz : ∀ i, bus i = 0) :
    (∃ c n evs, _set dev bus ctr pos val len =
      some (c, n, evs, specFillDelegs pos val len)) ∧
    (∀ p l, st25dvxxx_clear dev bus p l =
      st25dvxxx_set dev bus p ST25DVXXX_CLEAR_BYTE l) ∧
    st25dvxxx_erase dev bus =
      st25dvxxx_set dev bus 0 ST25DVXXX_CLEAR_BYTE dev.eeprom_size ∧
    ST25DVXXX_CLEAR_BYTE = 0x00 ∧ ST25DVXXX_SET_BUF_SIZE = 32 := by
  refine ⟨?_, fun p l => rfl, rfl, rfl, rfl⟩
  exact setGo_success dev bus hp val hbz len ctr pos len none (Nat.le_refl _) hw

/-- C6 witness: filling 40 bytes with `0xAB` from offset 0 on `dev0`
delegates exactly a 32-byte chunk at 0 and an 8-byte chunk at 32, and
`erase` is definitionally `set(0, 0x00, capacity)`. -/
theorem claim_C6_fill_and_erase_witness :
    (∃ c n evs, _set dev0 busZ 0 0 171 40 =
      some (c, n, evs, specFillDelegs 0 171 40)) ∧
    st25dvxxx_erase dev0 busZ =
      st25dvxxx_set dev0 busZ 0 ST25DVXXX_CLEAR_BYTE dev0.eeprom_size ∧
    specFillDelegs 0 171 40 =
      [(0, List.replicate 32 171), (32, List.replicate 8 171)] := by
  have h := claim_C6_fill_and_erase dev0 busZ 0 0 171 40 3 (by decide)
    (by decide) (fun i => rfl)
  exact ⟨h.1, h.2.2.1, by decide⟩

lemma writeGo_all_nack (dev : st25dvxxx_params) (bus : Nat → Int)
    (h1 : 1 ≤ dev.max_polls) (h255 : dev.max_polls ≤ 255)
    (hall : ∀ i, bus i = -ENXIO_errno) (f ctr pos : Nat) (data : List Nat)
    (hlen : data.length ≠ 0) :
    writeGo dev bus (f+1) ctr pos data =
      some (-ENXIO_errno, ctr + dev.max_polls,
        pollTrace (writeEv dev pos (data.take (min data.length
          (dev.page_size - MOD_POW2 pos dev.page_size)))) dev.max_polls) := by
  rw [writeGo_succ_eq dev bus f ctr pos hlen]
  dsimp only
  have hex : _write_page dev bus ctr pos
      (data.take (min data.length (dev.page_size - MOD_POW2 pos dev.page_size))) =
      (-ENXIO_errno, dev.max_polls,
        pollTrace (writeEv dev pos (data.take (min data.length
          (dev.page_size - MOD_POW2 pos dev.page_size)))) dev.max_polls) :=
    pollLoop_exhausts _ h1 h255 (fun i _ => hall (ctr + i))
  rw [hex]
  dsimp only
  rw [if_neg (by decide : ¬ (-ENXIO_errno : Int) = 0)]

/-- C7: if any chunk's transaction fails, the multi-chunk write
(`_write`) and fill (`_set`) issue no further transactions and return
that first error unchanged, with the transactions of the committed
earlier chunks still in the trace (no rollback): the trace is exactly
the chunk prefix up to and including the failing transaction.  The
third conjunct covers a chunk failing terminally with NoAck after its
poll budget: the write stops at that first chunk. -/
theorem claim_C7_first_error_abort (dev : st25dvxxx_params) (bus : Nat → Int)
    (ctr pos t val len : Nat) (data : List Nat) (k : Nat)
    (hp : dev.page_size = 2 ^ k) :
    ((∀ i, bus i ≠ -ENXIO_errno) → pos + data.length ≤ 2 ^ 32 →
      t < (specWriteChunks dev.page_size pos data).length →
      (∀ i, i < t → bus (ctr + i) = 0) → bus (ctr + t) ≠ 0 →
      _write dev bus ctr pos data =
        some (bus (ctr + t), ctr + t + 1,
          ((specWriteChunks dev.page_size pos data).take (t + 1)).map
            (fun pd => writeEv dev pd.1 pd.2))) ∧
    ((∀ i, bus i ≠ -ENXIO_errno) → pos + len ≤ 2 ^ 32 →
      t < (fillTxns dev.page_size pos val len).length →
      (∀ i, i < t → bus (ctr + i) = 0) → bus (ctr + t) ≠ 0 →
      ∃ dels, _set dev bus ctr pos val len =
        some (some (bus (ctr + t)), ctr + t + 1,
          ((fillTxns dev.page_size pos val len).take (t + 1)).map
            (fun pd => writeEv dev pd.1 pd.2), dels)) ∧
    ((∀ i, bus i = -ENXIO_errno) → 1 ≤ dev.max_polls → dev.max_polls ≤ 255 →
      1 ≤ data.length →
      _write dev bus ctr pos data =
        some (-ENXIO_errno, ctr + dev.max_polls,
          pollTrace (writeEv dev pos (data.take (min data.length
            (dev.page_size - MOD_POW2 pos dev.page_size)))) dev.max_polls)) := by
  refine ⟨?_, ?_, ?_⟩
  · intro hnN hw ht hpre hbt
    exact writeGo_fails dev bus hp data.length t ctr pos data (Nat.le_refl _)
      hw ht hpre hbt (hnN _)
  · intro hnN hw ht hpre hbt
    exact setGo_first_error dev bus hp val hnN len t ctr pos len none
      (Nat.le_refl _) hw ht hpre hbt
  · intro hall h1 h255 hlen
    obtain ⟨f, hf⟩ : ∃ f, data.length = f + 1 := ⟨data.length - 1, by omega⟩
    have h := writeGo_all_nack dev bus h1 h255 hall f ctr pos data (by omega)
    rw [← hf] at h
    exact h

/-- C7 witness: with a bus whose transaction 1 fails with `-5`, the
6-byte write at `pos = 5` on `dev0` stops after its second chunk and
returns `-5`; the 40-byte fill stops after its second page transaction;
and on an always-NoAck bus a write stops at its first chunk after the 6
poll attempts. -/
theorem claim_C7_first_error_abort_witness :
    _write dev0 busE 0 5 [1, 2, 3, 4, 5, 6] =
      some (busE (0 + 1), 0 + 1 + 1,
        ((specWriteChunks dev0.page_size 5 [1, 2, 3, 4, 5, 6]).take (1 + 1)).map
          (fun pd => writeEv dev0 pd.1 pd.2)) ∧
    (∃ dels, _set dev0 busE 0 0 7 40 =
      some (some (busE (0 + 1)), 0 + 1 + 1,
        ((fillTxns dev0.page_size 0 7 40).take (1 + 1)).map
          (fun pd => writeEv dev0 pd.1 pd.2), dels)) ∧
    _write dev0 busN 0 0 [9] =
      some (-ENXIO_errno, 0 + dev0.max_polls,
        pollTrace (writeEv dev0 0 (([9] : List Nat).take
          (min ([9] : List Nat).length
            (dev0.page_size - MOD_POW2 0 dev0.page_size)))) dev0.max_polls) := by
  have h := claim_C7_first_error_abort dev0 busE 0 5 1 7 40 [1, 2, 3, 4, 5, 6] 3
    (by decide)
  have hs := claim_C7_first_error_abort dev0 busE 0 0 1 7 40 [1] 3 (by decide)
  have hn := claim_C7_first_error_abort dev0 busN 0 0 1 7 40 [9] 3 (by decide)
  refine ⟨?_, ?_, ?_⟩
  · exact h.1 busE_ne_nack (by decide) (by decide) (by decide) (by decide)
  · exact hs.2.1 busE_ne_nack (by decide) (by decide) (by decide) (by decide)
  · exact hn.2.2 (fun i => rfl) (by decide) (by decide) (by decide)

/-- C10: through the public interface the fill helper is only invoked
with positive length, so its `check` variable is always assigned before
being returned: for any bus behaviour and any arguments, the public
`set` never returns the uninitialized value (the result is always
`some (some c, evs)`); for length 0 it returns success without calling
the helper at all. -/
theorem claim_C10_set_check_always_assigned (dev : st25dvxxx_params)
    (bus : Nat → Int) (pos val len : Nat) (hpage : 1 ≤ dev.page_size) :
    (∃ c evs, st25dvxxx_set dev bus pos val len = some (some c, evs)) ∧
    (dev.eeprom_size < 2 ^ 32 → pos ≤ dev.eeprom_size →
      st25dvxxx_set dev bus pos val 0 = some (some ST25DVXXX_OK, [])) := by
  constructor
  · unfold st25dvxxx_set
    by_cases hb : dev.eeprom_size < (pos + len) % 2 ^ 32
    · rw [if_pos hb]
      exact ⟨-ERANGE_errno, [], rfl⟩
    · rw [if_neg hb]
      by_cases hl : len = 0
      · rw [if_pos hl]
        exact ⟨ST25DVXXX_OK, [], rfl⟩
      · rw [if_neg hl]
        obtain ⟨c, n, evs, dels, hset, hz0, hpos1⟩ :=
          setGo_total dev bus hpage val len 0 pos len none (Nat.le_refl _)
        have hset' : _set dev bus 0 pos val len = some (c, n, evs, dels) := hset
        rw [hset']
        obtain ⟨x, hx⟩ := hpos1 (by omega)
        subst hx
        exact ⟨x, Ev.acq :: evs ++ [Ev.rel], rfl⟩
  · intro hcap hpos
    have hmod : (pos + 0) % 2 ^ 32 = pos := by omega
    unfold st25dvxxx_set
    rw [hmod, if_neg (by omega)]
    simp

/-- C10 witness: on `dev0` with an always-NoAck bus the public `set`
still returns an assigned value, and a zero-length `set` returns
success untouched. -/
theorem claim_C10_set_check_always_assigned_witness :
    (∃ c evs, st25dvxxx_set dev0 busN 3 9 10 = some (some c, evs)) ∧
    st25dvxxx_set dev0 busN 3 9 0 = some (some ST25DVXXX_OK, []) := by
  have h := claim_C10_set_check_always_assigned dev0 busN 3 9 10 (by decide)
  exact ⟨h.1, h.2 (by decide) (by decide)⟩

/-- C4 (amended): the bounds check computes `pos + len` in 32-bit
`size_t`/`uint32_t` arithmetic, so the guarantee holds for all
arguments whose sum does not wrap: whenever `pos + len < 2 ^ 32` and
`pos + len > capacity`, `read`, `write`, `set` and `clear` return
OutOfRange with an empty trace (no bus acquire, no transaction), and
the single-byte variants do the same whenever `pos ≥ capacity`. -/
theorem claim_C4_out_of_range (dev : st25dvxxx_params) (bus : Nat → Int)
    (pos len val b : Nat) (data : List Nat) :
    (pos + data.length < 2 ^ 32 → dev.eeprom_size < pos + data.length →
      st25dvxxx_write dev bus pos data = some (-ERANGE_errno, [])) ∧
    (pos + len < 2 ^ 32 → dev.eeprom_size < pos + len →
      st25dvxxx_read dev bus pos len = (-ERANGE_errno, []) ∧
      st25dvxxx_set dev bus pos val len = some (some (-ERANGE_errno), []) ∧
      st25dvxxx_clear dev bus pos len = some (some (-ERANGE_errno), [])) ∧
    (dev.eeprom_size ≤ pos →
      st25dvxxx_read_byte dev bus pos = (-ERANGE_errno, []) ∧
      st25dvxxx_write_byte dev bus pos b = some (-ERANGE_errno, [])) := by
  refine ⟨?_, ?_, ?_⟩
  · intro hnw hgt
    rw [st25dvxxx_write, if_pos (by rw [Nat.mod_eq_of_lt hnw]; omega)]
  · intro hnw hgt
    refine ⟨?_, ?_, ?_⟩
    · rw [st25dvxxx_read, if_pos (by rw [Nat.mod_eq_of_lt hnw]; omega)]
    · rw [st25dvxxx_set, if_pos (by rw [Nat.mod_eq_of_lt hnw]; omega)]
    · rw [st25dvxxx_clear, st25dvxxx_set,
        if_pos (by rw [Nat.mod_eq_of_lt hnw]; omega)]
  · intro hge
    exact ⟨by rw [st25dvxxx_read_byte, if_pos hge],
           by rw [st25dvxxx_write_byte, if_pos hge]⟩

/-- C4 witness: a 7-byte write at `pos = 250` on the 256-byte `dev0`
and a single-byte read at `pos = 300` are rejected with OutOfRange and
an empty trace. -/
theorem claim_C4_out_of_range_witness :
    st25dvxxx_write dev0 busZ 250 [1, 2, 3, 4, 5, 6, 7] =
      some (-ERANGE_errno, []) ∧
    st25dvxxx_read_byte dev0 busZ 300 = (-ERANGE_errno, []) := by
  have h := claim_C4_out_of_range dev0 busZ 250 7 0 9 [1, 2, 3, 4, 5, 6, 7]
  have h2 := claim_C4_out_of_range dev0 busZ 300 7 0 9 [1, 2, 3, 4, 5, 6, 7]
  exact ⟨h.1 (by decide) (by decide), (h2.2.2 (by decide)).1⟩

/-- C4 counterexample: the claim as stated (over unbounded integers) is
false on the 32-bit `size_t` the driver targets: with `pos = 2^32 - 1`
and `len = 2` we have `pos + len > capacity`, yet the machine-width sum
wraps to 1, the bounds check passes, the bus is acquired, two write
transactions are issued, and the call returns success instead of
OutOfRange. -/
theorem claim_C4_out_of_range_counterexample :
    2 ^ 32 - 1 + 2 > dev0.eeprom_size ∧
    (0 : Int) ≠ -ERANGE_errno ∧
    st25dvxxx_write dev0 busZ (2 ^ 32 - 1) [7, 7] =
      some (0, [Ev.acq, Ev.wr 0xFF 0xFF [7] false, Ev.wr 0x50 0 [7] false,
        Ev.rel]) :=
  ⟨by decide, by decide, by decide⟩
